import Mathlib

/-!
# aosc-nanny: a shallow embedding of `src/main.cpp`

The program is a single translation unit.  Its functions are embedded below as
executable Lean functions over an explicit world (ledger file, standard
streams, trace of observable events).

Conventions:

* `QString` values are Lean `String`s, handled through their character lists;
* `QByteArray` values are lists of bytes, each byte a `Nat` below 256;
* `int` positions returned by `indexOf` are `Int`, with `-1` for "not found";
* `unsigned long` capability words are `Nat`s taken modulo `2 ^ 64`;
* functions of Qt and KDE Frameworks that the program calls are modelled from
  their documentation and are marked as such; the HTML importer
  (`QTextDocument::setHtml`) and the message catalogue (`i18n`) are parameters.
-/

namespace Nanny

/-! ## Byte arrays -/

/-- A `QByteArray`: a sequence of bytes. -/
abbrev QByteArray := List Nat

/-- UTF-8 encoding of one code point. -/
def utf8EncodeChar (c : Char) : List Nat :=
  let v := c.toNat
  if v ≤ 0x7f then [v]
  else if v ≤ 0x7ff then [v / 64 % 32 + 0xc0, v % 64 + 0x80]
  else if v ≤ 0xffff then [v / 4096 % 16 + 0xe0, v / 64 % 64 + 0x80, v % 64 + 0x80]
  else [v / 262144 % 8 + 0xf0, v / 4096 % 64 + 0x80, v / 64 % 64 + 0x80, v % 64 + 0x80]

/-- `QString::toUtf8()`. -/
def toUtf8 (s : String) : QByteArray := s.data.flatMap utf8EncodeChar

/-- `QByteArray::contains(const QByteArray &)`: raw substring search. -/
def contains : QByteArray → QByteArray → Bool
  | [], pat => pat.isEmpty
  | x :: rest, pat => pat.isPrefixOf (x :: rest) || contains rest pat

/-- Search loop of `QByteArray::indexOf`: first offset, counted from `i`, at which `pat` starts. -/
def indexOfAux (pat : QByteArray) : QByteArray → Nat → Option Nat
  | [], i => if pat.isEmpty then some i else none
  | x :: rest, i => if pat.isPrefixOf (x :: rest) then some i else indexOfAux pat rest (i + 1)

/-- `QByteArray::indexOf(pattern, from)` for `from ≥ 0`: position of the first occurrence at or
after `from`, or `-1`. -/
def indexOf (data pat : QByteArray) (start : Nat) : Int :=
  if start > data.length then -1
  else match indexOfAux pat (data.drop start) start with
    | some i => (i : Int)
    | none => -1

/-- `QByteArray::mid(pos, len)`.  A position past the end gives the empty array; a negative
position is clamped to the start; a negative or too large length means "up to the end". -/
def mid (data : QByteArray) (pos len : Int) : QByteArray :=
  if pos > data.length then []
  else if pos < 0 then
    if len < 0 ∨ len + pos ≥ data.length then data
    else if len + pos ≤ 0 then []
    else data.take (len + pos).toNat
  else if len < 0 ∨ len > data.length - pos then data.drop pos.toNat
  else (data.drop pos.toNat).take len.toNat

/-- White space in the sense of `QByteArray::trimmed` (the C locale `isspace`). -/
def isSpaceByte (b : Nat) : Bool :=
  b == 9 || b == 10 || b == 11 || b == 12 || b == 13 || b == 32

/-- `QByteArray::trimmed()`: white space removed from both ends. -/
def trimmed (data : QByteArray) : QByteArray :=
  ((data.dropWhile isSpaceByte).reverse.dropWhile isSpaceByte).reverse

/-! ## The consent ledger -/

/-- What `QStandardPaths::locate(ConfigLocation, "nanny.db")` finds: an existing file, with what
opening and writing it will do. -/
structure LedgerFile where
  /-- bytes stored in the file -/
  content : QByteArray
  /-- `open(QFile::ReadOnly)` succeeds -/
  readable : Bool
  /-- `open(QFile::WriteOnly | QFile::Append)` succeeds -/
  appendable : Bool
  /-- bytes handed to `write` reach the file -/
  writeOk : Bool
  deriving DecidableEq, Repr

/-- The two shapes of the dialog of `showWarningGui`. -/
inductive Buttons where
  | ok
  | yesNo
  deriving DecidableEq, Repr

/-- Observable actions of one run, in the order they happen. -/
inductive Event where
  /-- `QStandardPaths::locate` was asked for the ledger -/
  | ledgerLocate
  /-- the ledger was opened read-only and read -/
  | ledgerRead
  /-- the ledger was opened for append and these bytes were handed to `write` -/
  | ledgerWrite (bytes : QByteArray)
  /-- `showPrompt` was called with these arguments -/
  | showPrompt (title text promptText : String) (forceText : Bool)
  /-- a modal message box was executed -/
  | dialog (title bodyText : String) (buttons : Buttons)
  /-- bytes written to standard output -/
  | stdoutWrite (bytes : QByteArray)
  /-- one line was read from standard input -/
  | stdinReadLine (line : QByteArray)
  /-- `QCommandLineParser::showHelp(code)` -/
  | showHelp (code : Nat)
  /-- `QApplication::exit(code)` -/
  | appExit (code : Nat)
  deriving DecidableEq, Repr

/-- The mutable part of the world. -/
structure World where
  /-- the ledger file found by `QStandardPaths::locate`, if one exists -/
  ledger : Option LedgerFile
  /-- bytes still to be read from standard input -/
  stdin : QByteArray
  /-- what has happened so far -/
  trace : List Event
  deriving DecidableEq, Repr

/-- Append one event to the trace. -/
def World.log (w : World) (e : Event) : World :=
  { w with trace := w.trace ++ [e] }

/-- `shouldPrompt` (main.cpp:52). -/
def shouldPrompt (name : String) (w : World) : Bool × World :=
  let w := w.log .ledgerLocate
  match w.ledger with
  | none => (true, w)
  | some file =>
    if !file.readable then (true, w)
    else
      let w := w.log .ledgerRead
      let configText := file.content
      let searchString := name ++ "\n"
      (!contains configText (toUtf8 searchString), w)

/-- `saveRecord` (main.cpp:66). -/
def saveRecord (name : String) (w : World) : Bool × World :=
  let w := w.log .ledgerLocate
  match w.ledger with
  | none => (false, w)
  | some file =>
    if !file.appendable then (false, w)
    else
      let bytes := toUtf8 name ++ [10]
      let file := if file.writeOk then { file with content := file.content ++ bytes } else file
      (true, { w.log (.ledgerWrite bytes) with ledger := some file })

/-- The answer of the consent ledger: the negation of `shouldPrompt`. -/
def alreadyConsented (name : String) (w : World) : Bool :=
  !(shouldPrompt name w).1

/-- The ledger content, with an absent file read as empty. -/
def ledgerContent (w : World) : QByteArray :=
  match w.ledger with
  | none => []
  | some file => file.content

/-- A world whose ledger is an existing file with the given content that can be read and appended to. -/
def worldWithLedger (content : QByteArray) : World :=
  { ledger := some { content := content, readable := true, appendable := true, writeOk := true },
    stdin := [], trace := [] }

/-! ## Strings -/

/-- `QString::endsWith(QLatin1Char)`. -/
def endsWith (s : String) (c : Char) : Bool :=
  s.data.getLast? == some c

/-- `QString::replace(QChar before, QChar after)`: every occurrence is replaced. -/
def replace (s : String) (before after : Char) : String :=
  ⟨s.data.map (fun c => if c = before then after else c)⟩

/-- `QString::toLower()`, on the ASCII letters (the only ones in the capability tables). -/
def toLower (s : String) : String :=
  ⟨s.data.map Char.toLower⟩

/-- Value of an ASCII digit, as `QString::arg` reads the digits of a place marker. -/
def argDigit (c : Char) : Option Nat :=
  if '0' ≤ c ∧ c ≤ '9' then some (c.toNat - '0'.toNat) else none

/-- A piece of a format string as `QString::arg` reads it: an ordinary character, or a place
marker `%n`, `%nn`, `%Ln`, `%Lnn` with its number and its own characters. -/
inductive ArgItem where
  | lit (c : Char)
  | marker (n : Nat) (raw : List Char)
  deriving DecidableEq, Repr

/-- Where the scanner of `QString::arg` stands inside a possible place marker. -/
inductive ArgState where
  /-- outside a marker -/
  | text
  /-- just after `%` -/
  | percent
  /-- just after `%L` -/
  | percentL
  /-- after the first digit of a marker -/
  | digit (n : Nat) (raw : List Char)
  deriving DecidableEq, Repr

/-- The scan of `QString::arg` for place markers (Qt: `findArgEscapes`): a marker is `%`, an
optional `L`, and one or two decimal digits. -/
def scanArg : ArgState → List Char → List ArgItem
  | .text, [] => []
  | .percent, [] => [.lit '%']
  | .percentL, [] => [.lit '%', .lit 'L']
  | .digit n raw, [] => [.marker n raw]
  | .text, c :: cs =>
    if c = '%' then scanArg .percent cs else .lit c :: scanArg .text cs
  | .percent, c :: cs =>
    if c = 'L' then scanArg .percentL cs
    else match argDigit c with
      | some d => scanArg (.digit d ['%', c]) cs
      | none =>
        if c = '%' then .lit '%' :: scanArg .percent cs
        else .lit '%' :: .lit c :: scanArg .text cs
  | .percentL, c :: cs =>
    match argDigit c with
    | some d => scanArg (.digit d ['%', 'L', c]) cs
    | none =>
      if c = '%' then .lit '%' :: .lit 'L' :: scanArg .percent cs
      else .lit '%' :: .lit 'L' :: .lit c :: scanArg .text cs
  | .digit n raw, c :: cs =>
    match argDigit c with
    | some d => .marker (10 * n + d) (raw ++ [c]) :: scanArg .text cs
    | none =>
      if c = '%' then .marker n raw :: scanArg .percent cs
      else .marker n raw :: .lit c :: scanArg .text cs

/-- The number of a place marker. -/
def ArgItem.number : ArgItem → Option Nat
  | .lit _ => none
  | .marker n _ => some n

/-- What `QString::arg` puts in the place of one item when the lowest marker number is `lowest`. -/
def ArgItem.subst (lowest : Nat) (a : String) : ArgItem → List Char
  | .lit c => [c]
  | .marker n raw => if n = lowest then a.data else raw

/-- `QString::arg(const QString &a)`, modelled from the Qt documentation: every occurrence of the
lowest-numbered place marker of the string is replaced by `a`; a string without place markers is
returned unchanged. -/
def arg (s a : String) : String :=
  let items := scanArg .text s.data
  match (items.filterMap ArgItem.number).min? with
  | none => s
  | some lowest => ⟨items.flatMap (ArgItem.subst lowest a)⟩

/-! ## Rich text -/

/-- A `QTextFragment`: a run of text with one character format, of which the program reads the
anchor target only. -/
structure QTextFragment where
  /-- `QTextFragment::text()` -/
  text : String
  /-- `charFormat().anchorHref()`, empty outside hyperlinks -/
  anchorHref : String
  deriving DecidableEq, Repr

/-- A `QTextBlock`: a paragraph, as the fragments its iterator visits. -/
structure QTextBlock where
  fragments : List QTextFragment
  deriving DecidableEq, Repr

/-- A `QTextDocument`, as the blocks visited from `begin()` to `end()`. -/
structure QTextDocument where
  blocks : List QTextBlock
  deriving DecidableEq, Repr

/-- Replacement of one character by `QTextDocument::toPlainText`. -/
def plainChar (c : Char) : Char :=
  if c = Char.ofNat 0x2029 ∨ c = Char.ofNat 0x2028 ∨ c = Char.ofNat 0xfdd0 ∨ c = Char.ofNat 0xfdd1 then '\n'
  else if c = Char.ofNat 0xa0 then ' '
  else c

/-- `QTextDocument::toPlainText()`, modelled from the Qt documentation: the text of the blocks,
joined by paragraph separators, with paragraph and line separators replaced by line feeds and
no-break spaces by spaces. -/
def toPlainText (doc : QTextDocument) : String :=
  let blockText := fun (b : QTextBlock) => b.fragments.flatMap (fun f => f.text.data)
  ⟨(List.intercalate [Char.ofNat 0x2029] (doc.blocks.map blockText)).map plainChar⟩

/-- The format string of a hyperlink run (main.cpp:231). -/
def linkFormat : String := "\x1b]8;;%1\x1b\\%2\x1b]8;;\x1b\\(%1)"

/-- Body of the inner loop of `translateHTMLforCli` (main.cpp:227-235): the output after one more
fragment. -/
def appendFragment (richCliOutput : String) (fragment : QTextFragment) : String :=
  let link := fragment.anchorHref
  if link ≠ "" then
    richCliOutput ++ arg (arg linkFormat link) fragment.text
  else
    let normalized := replace (replace fragment.text (Char.ofNat 0x2029) '\n') (Char.ofNat 0x2028) '\n'
    richCliOutput ++ normalized

/-- The two loops of `translateHTMLforCli` (main.cpp:224-237): all fragments of all blocks, in
order. -/
def renderBlocks (doc : QTextDocument) : String :=
  doc.blocks.foldl (fun out block => block.fragments.foldl appendFragment out) ""

/-- `translateHTMLforCli` (main.cpp:213).  `setHtml` is the HTML importer of `QTextDocument`;
`noColor` says that `NO_COLOR` is set in the environment. -/
def translateHTMLforCli (setHtml : String → QTextDocument) (noColor : Bool) (text : String) :
    String :=
  if text = "" then text
  else
    let qdoc := setHtml text
    let renderColors := !noColor
    if !renderColors then toPlainText qdoc
    else
      let richCliOutput := renderBlocks qdoc
      if !endsWith richCliOutput '\n' then richCliOutput ++ "\n" else richCliOutput

/-! ## Processor capabilities -/

/-- The predefined macros of the build target that the program tests. -/
structure Target where
  riscv : Bool
  ppc64 : Bool
  loongarch : Bool
  arm : Bool
  mips : Bool
  deriving DecidableEq, Repr

/-- Whether `AOSC_NANNY_USE_AUXV` is defined (main.cpp:78). -/
def useAuxv (t : Target) : Bool := t.riscv || t.ppc64

/-- The constant `searchPrefix` (main.cpp:132). -/
def searchPrefix (t : Target) : String :=
  if t.loongarch || t.arm then "Features"
  else if t.mips then "ASEs implemented"
  else "flags"

/-- A value of type `const char *`, as the object it points into: a string literal of the
program, or a buffer on the heap.  Two such pointers are equal when they point to the same
object. -/
inductive CharPtr where
  | literal (text : String)
  | heap (block : Nat)
  deriving DecidableEq, Repr

/-- `QHash<const char *, unsigned long>::value(key, defaultValue)`.  Qt hashes and compares keys of
a pointer type as addresses, so an entry is found when its key is the same pointer. -/
def value (table : List (CharPtr × Nat)) (key : CharPtr) (defaultValue : Nat) : Nat :=
  match table.find? (fun entry => entry.1 == key) with
  | some entry => entry.2
  | none => defaultValue

/-- The table `capabilities_p1` (main.cpp:89): masks of `AT_HWCAP`. -/
def capabilities_p1 : List (CharPtr × Nat) :=
  [ (.literal "altivec", 0x10000000),
    (.literal "vsx", 0x00000080),
    (.literal "spe", 0x00800000),
    (.literal "v", (1 <<< ('v'.toNat - 'a'.toNat)) % 2 ^ 64),
    (.literal "h", (1 <<< ('h'.toNat - 'a'.toNat)) % 2 ^ 64),
    (.literal "zicsr", (1 <<< 40) % 2 ^ 64),
    (.literal "zifencei", (1 <<< 41) % 2 ^ 64) ]

/-- The table `capabilities_p2` (main.cpp:102): masks of `AT_HWCAP2`. -/
def capabilities_p2 : List (CharPtr × Nat) :=
  [ (.literal "mma", 0x00020000),
    (.literal "vec_crypto", 0x02000000),
    (.literal "zfh", (1 <<< (66 - 64)) % 2 ^ 64),
    (.literal "zvfh", (1 <<< (69 - 64)) % 2 ^ 64) ]

/-- `QByteArray::data()` of the temporary array holding the lower-cased feature name: a pointer
to the buffer of that array, which lives in heap block `block`. -/
def data (block : Nat) (_bytes : QByteArray) : CharPtr := .heap block

/-- `checkCpuFeatureAuxv` (main.cpp:83).  `auxv_p1` and `auxv_p2` are the results of
`getauxval(AT_HWCAP)` and `getauxval(AT_HWCAP2)`; `block` is where the temporary array is
allocated. -/
def checkCpuFeatureAuxv (auxv_p1 auxv_p2 : Nat) (block : Nat) (feature : String) : Bool :=
  let featureLower := data block (toUtf8 (toLower feature))
  let p1 := value capabilities_p1 featureLower 0
  if p1 ≠ 0 then decide ((auxv_p1 &&& p1) > 0)
  else
    let p2 := value capabilities_p2 featureLower 0
    if p2 ≠ 0 then decide ((auxv_p2 &&& p2) > 0)
    else false

/-- The text-scan branch of `checkCpuFeature` (main.cpp:127-152).  `file` is the content of
`/proc/cpuinfo`, or `none` when it cannot be opened. -/
def checkCpuFeatureText (t : Target) (file : Option QByteArray) (feature : String) : Bool :=
  match file with
  | none => false
  | some data =>
    let prefixPos := indexOf data (toUtf8 (searchPrefix t)) 0
    if prefixPos < 0 then false
    else
      let commaPos := indexOf data [58] prefixPos.toNat
      if commaPos < 0 then false
      else
        let endPos := indexOf data [10] commaPos.toNat
        if commaPos < 0 then false
        else
          let flags := trimmed (mid data (commaPos + 1) (endPos - commaPos - 1))
          contains flags (toUtf8 feature)

/-! ## The environment of one run -/

/-- Everything one run reads and does not change. -/
structure Env where
  /-- the build target -/
  target : Target
  /-- content of `/proc/cpuinfo`, `none` when it cannot be opened -/
  cpuinfo : Option QByteArray
  /-- `getauxval(AT_HWCAP)` -/
  hwcap : Nat
  /-- `getauxval(AT_HWCAP2)` -/
  hwcap2 : Nat
  /-- heap block of the temporary array of `checkCpuFeatureAuxv` -/
  block : Nat
  /-- `getenv("DISPLAY") != nullptr` -/
  display : Bool
  /-- `getenv("NO_COLOR") != nullptr` -/
  noColor : Bool
  /-- `getenv("LEGAL_DOC_NAME")` -/
  legalDocName : Option String
  /-- `QFile::open(1, WriteOnly)` succeeds -/
  stdoutOpens : Bool
  /-- `QFile::open(0, ReadOnly)` succeeds -/
  stdinOpens : Bool
  /-- the user presses "Continue" in the dialog -/
  guiAnswer : Bool
  /-- the message catalogue: `i18n(text, arguments...)` -/
  i18n : String → List String → String
  /-- the HTML importer: `QTextDocument::setHtml` -/
  setHtml : String → QTextDocument

/-- `checkCpuFeature` (main.cpp:122). -/
def checkCpuFeature (E : Env) (feature : String) : Bool :=
  if useAuxv E.target then checkCpuFeatureAuxv (E.hwcap % 2 ^ 64) (E.hwcap2 % 2 ^ 64) E.block feature
  else checkCpuFeatureText E.target E.cpuinfo feature

/-! ## Messages -/

/-- `formatTelemetryWarning` (main.cpp:20). -/
def formatTelemetryWarning (E : Env) (name altSoftware altPackage description eulaUrl
    legalDocName : String) : String :=
  let promptText :=
    E.i18n
      ("%1 may collect your usage data on an opt-out basis, per the <a href=\"%2\">%3</a>.<br><br>This default setting does not comply with our "
        ++ "guidelines on "
        ++ "telemetry in packaged software, per section 5 of the <a "
        ++ "href=\"https://wiki.aosc.io/developer/packaging/package-styling-manual/#package-features\">AOSC OS Packaging Styling Manual</a>. ")
      [description, eulaUrl, if legalDocName = "" then E.i18n "Licensing Terms" [] else legalDocName]
    ++ (if altSoftware = "" then "<br><br>"
        else E.i18n "We offer a Telemetry-free alternative, %1 (package: %2).<br><br>"
          [altSoftware, altPackage])
    ++ E.i18n "Would you like to proceed with launching %1?" [name]
  promptText

/-- `formatCpuBaselineError` (main.cpp:43). -/
def formatCpuBaselineError (E : Env) (feature name : String) : String :=
  E.i18n
    ("Your processor does not support the \"%1\" feature, which is required by %2. This application will therefore not function correctly on your device "
      ++ "and will now terminate.")
    [feature, name]

/-- The consent sentence passed as prompt by `main` (main.cpp:336). -/
def consentPrompt (E : Env) : String :=
  E.i18n
    ("By selecting \"Yes,\" you agree to the licensing terms referenced above and consent launching an application which violates our packaging "
      ++ "guidelines.")
    []

/-! ## Presentation -/

/-- `showWarningGui` (main.cpp:156). -/
def showWarningGui (E : Env) (title text promptText : String) (w : World) : Bool × World :=
  let bodyText := text ++ "<br>" ++ promptText
  if promptText = "" then
    (false, w.log (.dialog title bodyText .ok))
  else
    (E.guiAnswer, w.log (.dialog title bodyText .yesNo))

/-- Loop of `QIODevice::readLine`: at most `n` bytes, stopping after a line feed. -/
def readLineAux : Nat → QByteArray → QByteArray × QByteArray
  | 0, rest => ([], rest)
  | _ + 1, [] => ([], [])
  | n + 1, b :: rest =>
    if b = 10 then ([b], rest)
    else ((b :: (readLineAux n rest).1), (readLineAux n rest).2)

/-- `QIODevice::readLine(maxSize)`: the line read and the input left.  The line is cut after
`maxSize - 1` bytes here; the program looks at its first byte only. -/
def readLine (maxSize : Nat) (input : QByteArray) : QByteArray × QByteArray :=
  readLineAux (maxSize - 1) input

/-- The notice written when the user declines (main.cpp:207). -/
def rejectedText (E : Env) : String :=
  E.i18n "You have chosen not to proceed. Exiting..." [] ++ "\n"

/-- `showWarningCli` (main.cpp:182). -/
def showWarningCli (E : Env) (title text promptText : String) (w : World) : Bool × World :=
  let promptToShow :=
    if promptText = "" then "" else "\n" ++ promptText ++ "\n\n" ++ E.i18n "Proceed? [y/N]" [] ++ " "
  let bodyText := title ++ "\n\n" ++ text ++ promptToShow
  if !E.stdoutOpens then
    (false, w.log (.appExit 209))
  else if !E.stdinOpens then
    (false, w.log (.appExit 210))
  else
    let w := w.log (.stdoutWrite (toUtf8 bodyText))
    if promptText = "" then (false, w)
    else
      let response := (readLine 64 w.stdin).1
      let w := { w.log (.stdinReadLine response) with stdin := (readLine 64 w.stdin).2 }
      if response.length ≥ 1 ∧ (response.head? = some 121 ∨ response.head? = some 89) then
        (true, w)
      else
        (false, w.log (.stdoutWrite (toUtf8 (rejectedText E))))

/-- `showPrompt` (main.cpp:244). -/
def showPrompt (E : Env) (title text promptText : String) (forceText : Bool) (w : World) :
    Bool × World :=
  let w := w.log (.showPrompt title text promptText forceText)
  let useGui := !forceText && E.display
  if useGui then showWarningGui E title text promptText w
  else showWarningCli E title (translateHTMLforCli E.setHtml E.noColor text)
    (translateHTMLforCli E.setHtml E.noColor promptText) w

/-! ## The orchestrator -/

/-- The options after `QCommandLineParser::process`: `isSet` is `isSome`, `value` is the string
given, or the empty string. -/
structure Args where
  /-- `-n` -/
  name : Option String
  /-- `-a` -/
  altSoftware : Option String
  /-- `-k` -/
  altPackage : Option String
  /-- `-d` -/
  description : Option String
  /-- `-l` -/
  eula : Option String
  /-- `-f` -/
  feature : Option String
  /-- `-c` -/
  textMode : Bool
  deriving DecidableEq, Repr

/-- The telemetry part of `main` (main.cpp:318-346). -/
def processDescription (E : Env) (a : Args) (name : String) (w : World) : Nat × World :=
  if a.description.isSome then
    let r := shouldPrompt name w
    if !r.1 then (0, r.2)
    else if !a.description.isSome || !a.eula.isSome then
      (1, r.2.log (.showHelp 1))
    else
      let legalDocName := E.legalDocName.getD ""
      let text := formatTelemetryWarning E (a.name.getD "") (a.altSoftware.getD "")
        (a.altPackage.getD "") (a.description.getD "") (a.eula.getD "") legalDocName
      let p := showPrompt E (E.i18n "Warning" []) text (consentPrompt E) a.textMode r.2
      if p.1 then (0, (saveRecord name p.2).2)
      else (10, p.2)
  else (0, w)

/-- `main` after the command line is parsed (main.cpp:298-347): the exit status and the world
left behind. -/
def main (E : Env) (a : Args) (w : World) : Nat × World :=
  if !a.name.isSome then (1, w.log (.showHelp 1))
  else if !a.description.isSome && !a.feature.isSome then (1, w.log (.showHelp 1))
  else
    let name := a.name.getD ""
    match a.feature with
    | some feature =>
      if !checkCpuFeature E feature then
        (10, (showPrompt E (E.i18n "Warning" []) (formatCpuBaselineError E feature name) ""
          a.textMode w).2)
      else processDescription E a name w
    | none => processDescription E a name w

/-! ## Vocabulary of the statements -/

/-- The events that touch the ledger file. -/
def Event.isLedgerAccess : Event → Bool
  | .ledgerLocate => true
  | .ledgerRead => true
  | .ledgerWrite _ => true
  | _ => false

/-- The ledger exists, opens for append, and the write goes through. -/
def canAppend (w : World) : Bool :=
  match w.ledger with
  | none => false
  | some file => file.appendable && file.writeOk

/-- A world with no ledger file, nothing on standard input and an empty trace. -/
def freshWorld : World :=
  { ledger := none, stdin := [], trace := [] }

/-- A request carrying a package name only. -/
def nameOnly (name : String) : Args :=
  { name := some name, altSoftware := none, altPackage := none, description := none,
    eula := none, feature := none, textMode := false }

/-- A telemetry request in text mode. -/
def telemetryArgs (name description eula : String) : Args :=
  { name := some name, altSoftware := none, altPackage := none,
    description := some description, eula := some eula, feature := none, textMode := true }

/-- A capability request. -/
def featureArgs (name feature : String) : Args :=
  { name := some name, altSoftware := none, altPackage := none, description := none,
    eula := none, feature := some feature, textMode := true }

/-- A sample environment: an x86 build, a terminal session with colours, an untranslated
catalogue that leaves the arguments out, and an importer that yields the text as one plain run. -/
def sampleEnv : Env :=
  { target := { riscv := false, ppc64 := false, loongarch := false, arm := false, mips := false },
    cpuinfo := some (toUtf8 "flags\t\t: fpu avx2\n"),
    hwcap := 0, hwcap2 := 0, block := 0,
    display := false, noColor := false, legalDocName := none,
    stdoutOpens := true, stdinOpens := true, guiAnswer := false,
    i18n := fun text _ => text,
    setHtml := fun text => { blocks := [{ fragments := [{ text := text, anchorHref := "" }] }] } }

/-- The string ends with one line feed and not with two. -/
def EndsWithOneNewline (s : String) : Prop :=
  ['\n'] <:+ s.data ∧ ¬ ['\n', '\n'] <:+ s.data

/-- A document of one paragraph holding one plain run. -/
def plainDoc (text : String) : QTextDocument :=
  { blocks := [{ fragments := [{ text := text, anchorHref := "" }] }] }

/-- A document of one paragraph holding one hyperlink run. -/
def linkDoc (href text : String) : QTextDocument :=
  { blocks := [{ fragments := [{ text := text, anchorHref := href }] }] }

/-- The text "a" followed by two line separators (U+2028), each the mark of a forced line
break inside a paragraph. -/
def twoBreaks : String :=
  ⟨['a', Char.ofNat 0x2028, Char.ofNat 0x2028]⟩

/-- The rendering of a hyperlink run that the specification describes: the OSC 8 sequence
around the target, the display text, the closing OSC 8 sequence, the target in parentheses. -/
def osc8 (href text : String) : String :=
  "\x1b]8;;" ++ href ++ "\x1b\\" ++ text ++ "\x1b]8;;\x1b\\" ++ "(" ++ href ++ ")"

/-- The mask a table gives for a name, the keys read as the names they spell. -/
def maskOf (table : List (CharPtr × Nat)) (name : String) : Option Nat :=
  (table.find? (fun entry => entry.1 == CharPtr.literal name)).map (fun entry => entry.2)

/-- The bitmask probe that the specification describes: the lower-cased name is looked up by
its spelling, in the primary table first, and the bit is tested in the matching word. -/
def checkCpuFeatureAuxvSpec (w1 w2 : Nat) (feature : String) : Bool :=
  match maskOf capabilities_p1 (toLower feature) with
  | some m => decide ((w1 &&& m) ≠ 0)
  | none =>
    match maskOf capabilities_p2 (toLower feature) with
    | some m => decide ((w2 &&& m) ≠ 0)
    | none => false

/-- The pattern occurs in the data at position `p`, and at no position from `start` up to `p`. -/
def FirstAt (pat data : QByteArray) (start p : Nat) : Prop :=
  start ≤ p ∧ pat <+: data.drop p ∧ ∀ q, start ≤ q → q < p → ¬ pat <+: data.drop q

/-- Splitting at white space, with `cur` the token being read. -/
def tokensAux : QByteArray → QByteArray → List QByteArray
  | [], cur => if cur.isEmpty then [] else [cur]
  | b :: rest, cur =>
    if isSpaceByte b then
      if cur.isEmpty then tokensAux rest [] else cur :: tokensAux rest []
    else tokensAux rest (cur ++ [b])

/-- The whitespace-delimited tokens of a value, which the specification compares the feature
name with. -/
def tokens (value : QByteArray) : List QByteArray :=
  tokensAux value []

/-! ## Lemmas on byte search -/

theorem contains_iff (hay pat : QByteArray) : contains hay pat = true ↔ pat <:+: hay := by
  induction hay with
  | nil =>
    cases pat <;> simp [contains]
  | cons x rest ih =>
    simp only [contains, Bool.or_eq_true, ih, List.isPrefixOf_iff_prefix]
    rw [List.infix_cons_iff]

theorem toUtf8_append (a b : String) : toUtf8 (a ++ b) = toUtf8 a ++ toUtf8 b := by
  simp [toUtf8]

theorem toUtf8_newline : toUtf8 "\n" = [10] := by decide

/-- An occurrence of `b ++ [n]` in `a ++ n :: r`, when `n` occurs neither in `a` nor in `b`, ends at
the separator or lies inside `r`. -/
theorem infix_sep_cases {α : Type} (n : α) (a b r : List α) (ha : n ∉ a) (hb : n ∉ b)
    (h : b ++ [n] <:+: a ++ n :: r) : b <:+ a ∨ b ++ [n] <:+: r := by
  obtain ⟨x, y, hxy⟩ := h
  have h1 : (x ++ b) ++ (n :: y) = a ++ (n :: r) := by simpa using hxy
  rcases List.append_eq_append_iff.mp h1 with ⟨a', h2, h3⟩ | ⟨c', h2, h3⟩
  · cases a' with
    | nil => left; exact ⟨x, by simpa using h2.symm⟩
    | cons z a'' =>
      exfalso
      simp only [List.cons_append, List.cons.injEq] at h3
      apply ha
      rw [h2, h3.1]
      simp
  · cases c' with
    | nil => left; exact ⟨x, by simpa using h2⟩
    | cons z c'' =>
      simp only [List.cons_append, List.cons.injEq] at h3
      obtain ⟨hz, hr⟩ := h3
      subst hz
      rcases List.append_eq_append_iff.mp h2 with ⟨a', h4, h5⟩ | ⟨d', h4, h5⟩
      · exfalso
        apply hb
        rw [h5]
        simp
      · cases d' with
        | nil =>
          exfalso
          apply hb
          simp only [List.nil_append] at h5
          rw [← h5]
          simp
        | cons z d'' =>
          simp only [List.cons_append, List.cons.injEq] at h5
          right
          refine ⟨d'', y, ?_⟩
          rw [hr, h5.2]
          simp

/-! ## The consent ledger -/

theorem shouldPrompt_readable (name : String) (w : World) (file : LedgerFile)
    (hled : w.ledger = some file) (hr : file.readable = true) :
    shouldPrompt name w =
      (!contains file.content (toUtf8 name ++ [10]),
        (w.log .ledgerLocate).log .ledgerRead) := by
  simp [shouldPrompt, World.log, hled, hr, toUtf8_append, toUtf8_newline]

theorem saveRecord_appendable (name : String) (w : World) (file : LedgerFile)
    (hled : w.ledger = some file) (hap : file.appendable = true) (hwr : file.writeOk = true) :
    saveRecord name w =
      (true, { (w.log .ledgerLocate).log (.ledgerWrite (toUtf8 name ++ [10])) with
        ledger := some { file with content := file.content ++ (toUtf8 name ++ [10]) } }) := by
  simp [saveRecord, World.log, hled, hap, hwr]

/-- C2, failing input: the name "pkg-a" with no ledger file.  `saveRecord` asks
`QStandardPaths::locate` for the path, which finds existing files only, so the open in the
creating mode `WriteOnly | Append` is never reached: it returns false and there is still no
ledger file afterwards, where the file should exist and hold the name followed by a line
feed. -/
theorem saveRecord_absent_not_created :
    (saveRecord "pkg-a" freshWorld).1 = false ∧
      (saveRecord "pkg-a" freshWorld).2.ledger = none ∧
      ¬ (∃ file, (saveRecord "pkg-a" freshWorld).2.ledger = some file ∧
          file.content = [] ++ (toUtf8 "pkg-a" ++ [10])) := by
  refine ⟨by decide, by decide, ?_⟩
  rintro ⟨file, h, -⟩
  have h0 : (saveRecord "pkg-a" freshWorld).2.ledger = none := by decide
  rw [h0] at h
  exact Option.noConfusion h

/-- What `saveRecord` does in every ledger state: it returns true exactly when a ledger file
is found and opens for append; the file is present afterwards exactly when it was present
before; the content afterwards is the previous content followed by the name and a line feed
when the file is found, opens and takes the write, and is the previous content otherwise. -/
theorem saveRecord_existing_file_only (name : String) (w : World) :
    ((saveRecord name w).1 = true ↔ ∃ file, w.ledger = some file ∧ file.appendable = true) ∧
      (saveRecord name w).2.ledger.isSome = w.ledger.isSome ∧
      ledgerContent (saveRecord name w).2 =
        (if canAppend w then ledgerContent w ++ (toUtf8 name ++ [10]) else ledgerContent w) := by
  cases hled : w.ledger with
  | none => simp [saveRecord, World.log, hled, ledgerContent, canAppend]
  | some file =>
    cases hap : file.appendable <;> cases hwr : file.writeOk <;>
      simp [saveRecord, World.log, hled, ledgerContent, canAppend, hap, hwr]

/-- C5: starting from an existing, accessible, empty ledger file, after `saveRecord a` twice the
ledger answers "already consented" for `b` exactly when the bytes of `b` are a suffix of the
bytes of `a`, for names whose encodings hold no line feed. -/
theorem ledger_twice_consented_iff_suffix (a b : String) (w : World)
    (hw : w.ledger = some { content := [], readable := true, appendable := true, writeOk := true })
    (ha : 10 ∉ toUtf8 a) (hb : 10 ∉ toUtf8 b) :
    alreadyConsented b (saveRecord a (saveRecord a w).2).2 = true ↔ toUtf8 b <:+ toUtf8 a := by
  rw [saveRecord_appendable a w _ hw rfl rfl]
  rw [saveRecord_appendable a _ _ rfl rfl rfl]
  unfold alreadyConsented
  rw [shouldPrompt_readable b _ _ rfl rfl]
  simp only [Bool.not_not, contains_iff, List.nil_append]
  constructor
  · intro h
    have h1 : toUtf8 b ++ [10] <:+: toUtf8 a ++ 10 :: (toUtf8 a ++ 10 :: []) := by
      simpa using h
    rcases infix_sep_cases 10 _ _ _ ha hb h1 with h2 | h2
    · exact h2
    · rcases infix_sep_cases 10 _ _ _ ha hb h2 with h3 | h3
      · exact h3
      · simp at h3
  · rintro ⟨p, hp⟩
    refine ⟨p, toUtf8 a ++ [10], ?_⟩
    rw [← hp]
    simp

/-- C5, witness: the names "pkg-a" and "pkg-b". -/
theorem ledger_twice_consented_iff_suffix_witness :
    (alreadyConsented "pkg-b" (saveRecord "pkg-a" (saveRecord "pkg-a" (worldWithLedger [])).2).2
        = true ↔ toUtf8 "pkg-b" <:+ toUtf8 "pkg-a") ∧
      (alreadyConsented "pkg-a" (saveRecord "pkg-a" (saveRecord "pkg-a" (worldWithLedger [])).2).2
        = true) ∧
      (alreadyConsented "pkg-b" (saveRecord "pkg-a" (saveRecord "pkg-a" (worldWithLedger [])).2).2
        = false) ∧
      (alreadyConsented "g-a" (saveRecord "pkg-a" (saveRecord "pkg-a" (worldWithLedger [])).2).2
        = true) :=
  ⟨ledger_twice_consented_iff_suffix "pkg-a" "pkg-b" (worldWithLedger []) rfl (by decide)
      (by decide), by decide, by decide, by decide⟩

/-! ## The orchestrator -/

/-- C10, counterexample: a request with a package name and nothing else ends with exit status 1
after the usage help, not with 0 and nothing shown. -/
theorem main_name_only_counterexample :
    (main sampleEnv (nameOnly "foo") freshWorld).1 = 1 ∧
      (main sampleEnv (nameOnly "foo") freshWorld).2.trace = [.showHelp 1] ∧
      (main sampleEnv (nameOnly "foo") freshWorld).1 ≠ 0 := by
  decide

/-- C10, amended: for every request that has a package name but neither a feature name nor a
description, `main` shows the usage help and ends with exit status 1; nothing else happens, so
the ledger and standard input are left as they were. -/
theorem main_name_only_usage_error (E : Env) (a : Args) (w : World) (name : String)
    (hn : a.name = some name) (hf : a.feature = none) (hd : a.description = none) :
    main E a w = (1, w.log (.showHelp 1)) ∧
      (main E a w).2.ledger = w.ledger ∧ (main E a w).2.stdin = w.stdin := by
  simp [main, hn, hf, hd, World.log]

/-- C10, witness: the request `-n foo`. -/
theorem main_name_only_usage_error_witness :
    main sampleEnv (nameOnly "foo") freshWorld = (1, freshWorld.log (.showHelp 1)) ∧
      (main sampleEnv (nameOnly "foo") freshWorld).2.ledger = freshWorld.ledger ∧
      (main sampleEnv (nameOnly "foo") freshWorld).2.stdin = freshWorld.stdin :=
  main_name_only_usage_error sampleEnv (nameOnly "foo") freshWorld "foo" rfl rfl rfl

theorem translateHTMLforCli_empty (setHtml : String → QTextDocument) (noColor : Bool) :
    translateHTMLforCli setHtml noColor "" = "" := by
  simp [translateHTMLforCli]

/-- C3: when the feature check fails, `main` ends with exit status 10 after one call of
`showPrompt` with the CPU baseline error and an empty prompt, which shows a dialog with only a
dismiss button in a graphical session and writes title and message to standard output in a
terminal session, without asking anything; no event of the run touches the ledger, and the
ledger file and standard input are left as they were, whatever other options were given. -/
theorem main_failed_feature (E : Env) (a : Args) (w : World) (name feature : String)
    (hn : a.name = some name) (hf : a.feature = some feature)
    (hc : checkCpuFeature E feature = false) :
    (main E a w).1 = 10 ∧
      (main E a w).2.trace =
        w.trace ++
          [.showPrompt (E.i18n "Warning" []) (formatCpuBaselineError E feature name) "" a.textMode,
            (if !a.textMode && E.display then
              .dialog (E.i18n "Warning" []) (formatCpuBaselineError E feature name ++ "<br>" ++ "")
                .ok
            else if !E.stdoutOpens then .appExit 209
            else if !E.stdinOpens then .appExit 210
            else .stdoutWrite (toUtf8 (E.i18n "Warning" [] ++ "\n\n" ++
              translateHTMLforCli E.setHtml E.noColor (formatCpuBaselineError E feature name)
              ++ "")))] ∧
      (∀ e ∈ (main E a w).2.trace, e ∈ w.trace ∨ e.isLedgerAccess = false) ∧
      (main E a w).2.ledger = w.ledger ∧ (main E a w).2.stdin = w.stdin := by
  have hm : main E a w = (10, (showPrompt E (E.i18n "Warning" [])
      (formatCpuBaselineError E feature name) "" a.textMode w).2) := by
    simp [main, hn, hf, hc]
  rw [hm]
  cases ht : a.textMode <;> cases hdsp : E.display <;> cases ho : E.stdoutOpens <;>
    cases hi : E.stdinOpens <;>
    simp [showPrompt, showWarningGui, showWarningCli, translateHTMLforCli_empty, World.log,
      ht, hdsp, ho, hi] <;>
    (intro e he
     rcases he with he | he | he
     · exact Or.inl he
     · right; subst he; rfl
     · right; subst he; rfl)

/-- C3, witness: feature "avx512" on a processor whose flags are "fpu avx2". -/
theorem main_failed_feature_witness :
    (main sampleEnv (featureArgs "foo" "avx512") freshWorld).1 = 10 ∧
      (main sampleEnv (featureArgs "foo" "avx512") freshWorld).2.ledger = freshWorld.ledger :=
  ⟨(main_failed_feature sampleEnv (featureArgs "foo" "avx512") freshWorld "foo" "avx512" rfl rfl
      (by decide)).1,
    (main_failed_feature sampleEnv (featureArgs "foo" "avx512") freshWorld "foo" "avx512" rfl rfl
      (by decide)).2.2.2.1⟩

/-- C4: with a package name and a description, a feature check that passes if there is one, and
a readable ledger holding the name followed by a line feed, `main` ends with exit status 0 after
locating and reading the ledger and nothing else: no call of `showPrompt`, no write, whatever
the EULA option is. -/
theorem main_already_consented (E : Env) (a : Args) (w : World) (name description : String)
    (file : LedgerFile)
    (hn : a.name = some name) (hd : a.description = some description)
    (hf : ∀ feature, a.feature = some feature → checkCpuFeature E feature = true)
    (hled : w.ledger = some file) (hr : file.readable = true)
    (hc : toUtf8 name ++ [10] <:+: file.content) :
    (main E a w).1 = 0 ∧
      (main E a w).2.trace = w.trace ++ [.ledgerLocate, .ledgerRead] ∧
      (main E a w).2.ledger = w.ledger ∧ (main E a w).2.stdin = w.stdin := by
  have hsp : shouldPrompt name w = (false, (w.log .ledgerLocate).log .ledgerRead) := by
    rw [shouldPrompt_readable name w file hled hr]
    have := (contains_iff file.content (toUtf8 name ++ [10])).mpr hc
    simp [this]
  have hp : processDescription E a name w = (0, (w.log .ledgerLocate).log .ledgerRead) := by
    simp [processDescription, hd, hsp]
  have hm : main E a w = processDescription E a name w := by
    cases hfe : a.feature with
    | none => simp [main, hn, hd, hfe]
    | some feature => simp [main, hn, hd, hfe, hf feature hfe]
  rw [hm, hp]
  simp [World.log]

/-- C4, witness: the name "bar" with a ledger holding "bar" on a line, and no EULA option. -/
theorem main_already_consented_witness :
    (main sampleEnv { telemetryArgs "bar" "Bar App" "" with eula := none }
        (worldWithLedger (toUtf8 "bar\n"))).1 = 0 ∧
      (main sampleEnv { telemetryArgs "bar" "Bar App" "" with eula := none }
        (worldWithLedger (toUtf8 "bar\n"))).2.trace = [] ++ [.ledgerLocate, .ledgerRead] :=
  ⟨(main_already_consented sampleEnv { telemetryArgs "bar" "Bar App" "" with eula := none }
      (worldWithLedger (toUtf8 "bar\n")) "bar" "Bar App" _ rfl rfl
      (by intro feature h; exact Option.noConfusion h) rfl rfl (by decide)).1,
    (main_already_consented sampleEnv { telemetryArgs "bar" "Bar App" "" with eula := none }
      (worldWithLedger (toUtf8 "bar\n")) "bar" "Bar App" _ rfl rfl
      (by intro feature h; exact Option.noConfusion h) rfl rfl (by decide)).2.1⟩

theorem readLine_head (n : Nat) (input : QByteArray) (hn : 2 ≤ n) :
    (readLine n input).1.head? = input.head? := by
  obtain ⟨m, rfl⟩ : ∃ m, n = m + 2 := ⟨n - 2, by omega⟩
  cases input with
  | nil => simp [readLine, readLineAux]
  | cons b rest =>
    by_cases hb : b = 10 <;> simp [readLine, readLineAux, hb]

theorem showWarningCli_asks (E : Env) (title text promptText : String) (w : World)
    (hout : E.stdoutOpens = true) (hin : E.stdinOpens = true) (hp : promptText ≠ "") :
    showWarningCli E title text promptText w =
      if (readLine 64 w.stdin).1.head? = some 121 ∨ (readLine 64 w.stdin).1.head? = some 89 then
        (true, { (w.log (.stdoutWrite (toUtf8 (title ++ "\n\n" ++ text ++
            ("\n" ++ promptText ++ "\n\n" ++ E.i18n "Proceed? [y/N]" [] ++ " "))))).log
              (.stdinReadLine (readLine 64 w.stdin).1) with stdin := (readLine 64 w.stdin).2 })
      else
        (false, ({ (w.log (.stdoutWrite (toUtf8 (title ++ "\n\n" ++ text ++
            ("\n" ++ promptText ++ "\n\n" ++ E.i18n "Proceed? [y/N]" [] ++ " "))))).log
              (.stdinReadLine (readLine 64 w.stdin).1) with
                stdin := (readLine 64 w.stdin).2 }).log
          (.stdoutWrite (toUtf8 (rejectedText E)))) := by
  have hlen : ∀ l : QByteArray, (l.head? = some 121 ∨ l.head? = some 89) →
      l.length ≥ 1 := by
    intro l h
    cases l with
    | nil => simp at h
    | cons b t => simp
  by_cases hy : (readLine 64 w.stdin).1.head? = some 121 ∨ (readLine 64 w.stdin).1.head? = some 89
  · have := hlen _ hy
    simp only [showWarningCli, hout, hin, hp, World.log, if_pos hy]
    simp [this, hy]
  · simp only [showWarningCli, hout, hin, hp, World.log, if_neg hy]
    simp [hy]

/-- C1: telemetry request in terminal mode, standard streams open, rendered consent sentence
not empty, and a ledger file that exists, can be read and appended to, and does not hold the
name followed by a line feed.  If the line read from standard input starts with `y` or `Y`, the
exit status is 0, the ledger is the old content followed by the name and a line feed, and
`shouldPrompt` is false afterwards; otherwise the last thing done is writing the decline notice,
the exit status is 10 and the ledger is unchanged. -/
theorem main_telemetry_terminal (E : Env) (a : Args) (w : World) (name description eula : String)
    (file : LedgerFile)
    (hn : a.name = some name) (hd : a.description = some description) (hl : a.eula = some eula)
    (hf : ∀ feature, a.feature = some feature → checkCpuFeature E feature = true)
    (ht : a.textMode = true ∨ E.display = false)
    (hout : E.stdoutOpens = true) (hin : E.stdinOpens = true)
    (hled : w.ledger = some file) (hr : file.readable = true) (hap : file.appendable = true)
    (hwr : file.writeOk = true)
    (hnot : ¬ (toUtf8 name ++ [10] <:+: file.content))
    (hprompt : translateHTMLforCli E.setHtml E.noColor (consentPrompt E) ≠ "") :
    ((readLine 64 w.stdin).1.head? = some 121 ∨ (readLine 64 w.stdin).1.head? = some 89 →
        (main E a w).1 = 0 ∧
        (main E a w).2.ledger =
          some { file with content := file.content ++ (toUtf8 name ++ [10]) } ∧
        (shouldPrompt name (main E a w).2).1 = false) ∧
      (¬ ((readLine 64 w.stdin).1.head? = some 121 ∨ (readLine 64 w.stdin).1.head? = some 89) →
        (main E a w).1 = 10 ∧
        (main E a w).2.trace.getLast? = some (.stdoutWrite (toUtf8 (rejectedText E))) ∧
        (main E a w).2.ledger = w.ledger) := by
  have hm : main E a w = processDescription E a name w := by
    cases hfe : a.feature with
    | none => simp [main, hn, hd, hfe]
    | some feature => simp [main, hn, hd, hfe, hf feature hfe]
  have hsp : shouldPrompt name w = (true, (w.log .ledgerLocate).log .ledgerRead) := by
    rw [shouldPrompt_readable name w file hled hr]
    have : contains file.content (toUtf8 name ++ [10]) = false := by
      rw [Bool.eq_false_iff]
      intro h
      exact hnot ((contains_iff _ _).mp h)
    simp [this]
  have hgui : (!a.textMode && E.display) = false := by
    rcases ht with h | h <;> simp [h]
  have hshow := showWarningCli_asks E (E.i18n "Warning" [])
    (translateHTMLforCli E.setHtml E.noColor (formatTelemetryWarning E name
      (a.altSoftware.getD "") (a.altPackage.getD "") description eula (E.legalDocName.getD "")))
    (translateHTMLforCli E.setHtml E.noColor (consentPrompt E))
    (((w.log .ledgerLocate).log .ledgerRead).log (.showPrompt (E.i18n "Warning" [])
      (formatTelemetryWarning E name (a.altSoftware.getD "") (a.altPackage.getD "") description
        eula (E.legalDocName.getD "")) (consentPrompt E) a.textMode))
    hout hin hprompt
  have hstdin : (((w.log .ledgerLocate).log .ledgerRead).log (.showPrompt (E.i18n "Warning" [])
      (formatTelemetryWarning E name (a.altSoftware.getD "") (a.altPackage.getD "") description
        eula (E.legalDocName.getD "")) (consentPrompt E) a.textMode)).stdin = w.stdin := rfl
  rw [hstdin] at hshow
  rw [hm]
  constructor
  · intro hy
    have hacc : (processDescription E a name w).1 = 0 ∧
        (processDescription E a name w).2.ledger =
          some { file with content := file.content ++ (toUtf8 name ++ [10]) } := by
      simp only [processDescription, hd, hl, hsp, hn, showPrompt, hgui]
      simp only [Option.isSome_some, Bool.not_true, Bool.false_eq_true, if_false, Bool.or_self,
        Option.getD_some, hshow, if_pos hy, if_true]
      rw [saveRecord_appendable name _ file (by simp [World.log, hled]) hap hwr]
      simp
    refine ⟨hacc.1, hacc.2, ?_⟩
    rw [shouldPrompt_readable name _ _ hacc.2 hr]
    have : contains (file.content ++ (toUtf8 name ++ [10])) (toUtf8 name ++ [10]) = true :=
      (contains_iff _ _).mpr ⟨file.content, [], by simp⟩
    simp [this]
  · intro hy
    simp only [processDescription, hd, hl, hsp, hn, showPrompt, hgui]
    simp only [Option.isSome_some, Bool.not_true, Bool.false_eq_true, if_false, Bool.or_self,
      Option.getD_some, hshow, if_neg hy]
    simp [World.log, hled]

/-- C1, witness: name "bar", description "Bar App", an empty ledger file; the answer "y" gives
exit status 0 and the ledger "bar" on a line, the answer "n" gives exit status 10 and the ledger
unchanged. -/
theorem main_telemetry_terminal_witness :
    ((main sampleEnv (telemetryArgs "bar" "Bar App" "https://example.com/eula")
        { worldWithLedger [] with stdin := toUtf8 "y\n" }).1 = 0 ∧
      (main sampleEnv (telemetryArgs "bar" "Bar App" "https://example.com/eula")
        { worldWithLedger [] with stdin := toUtf8 "y\n" }).2.ledger =
          some { content := [] ++ (toUtf8 "bar" ++ [10]), readable := true, appendable := true,
                 writeOk := true }) ∧
      ((main sampleEnv (telemetryArgs "bar" "Bar App" "https://example.com/eula")
        { worldWithLedger [] with stdin := toUtf8 "n\n" }).1 = 10 ∧
      (main sampleEnv (telemetryArgs "bar" "Bar App" "https://example.com/eula")
        { worldWithLedger [] with stdin := toUtf8 "n\n" }).2.ledger = (worldWithLedger []).ledger) :=
  ⟨⟨((main_telemetry_terminal sampleEnv (telemetryArgs "bar" "Bar App" "https://example.com/eula")
        { worldWithLedger [] with stdin := toUtf8 "y\n" } "bar" "Bar App"
        "https://example.com/eula" _ rfl rfl rfl (by intro feature h; exact Option.noConfusion h)
        (Or.inl rfl) rfl rfl rfl rfl rfl rfl (by decide) (by decide)).1
        (Or.inl (by decide))).1,
      ((main_telemetry_terminal sampleEnv (telemetryArgs "bar" "Bar App" "https://example.com/eula")
        { worldWithLedger [] with stdin := toUtf8 "y\n" } "bar" "Bar App"
        "https://example.com/eula" _ rfl rfl rfl (by intro feature h; exact Option.noConfusion h)
        (Or.inl rfl) rfl rfl rfl rfl rfl rfl (by decide) (by decide)).1
        (Or.inl (by decide))).2.1⟩,
    ⟨((main_telemetry_terminal sampleEnv (telemetryArgs "bar" "Bar App" "https://example.com/eula")
        { worldWithLedger [] with stdin := toUtf8 "n\n" } "bar" "Bar App"
        "https://example.com/eula" _ rfl rfl rfl (by intro feature h; exact Option.noConfusion h)
        (Or.inl rfl) rfl rfl rfl rfl rfl rfl (by decide) (by decide)).2
        (by decide)).1,
      ((main_telemetry_terminal sampleEnv (telemetryArgs "bar" "Bar App" "https://example.com/eula")
        { worldWithLedger [] with stdin := toUtf8 "n\n" } "bar" "Bar App"
        "https://example.com/eula" _ rfl rfl rfl (by intro feature h; exact Option.noConfusion h)
        (Or.inl rfl) rfl rfl rfl rfl rfl rfl (by decide) (by decide)).2
        (by decide)).2.2⟩⟩

/-! ## Terminal rendering -/

/-- C6, counterexample: the empty input is returned as it is, without a line feed; with
colours, a run that ends in two forced line breaks renders with two line feeds at the end; with
`NO_COLOR` set, the plain text of a one-word document is returned without a line feed. -/
theorem translateHTMLforCli_newline_counterexample :
    ¬ EndsWithOneNewline (translateHTMLforCli plainDoc false "") ∧
      ¬ EndsWithOneNewline (translateHTMLforCli (fun _ => plainDoc twoBreaks) false "a<br><br>") ∧
      ¬ EndsWithOneNewline (translateHTMLforCli (fun _ => plainDoc "hello") true "hello") := by
  unfold EndsWithOneNewline
  decide

/-- C6, amended: for every non-empty input, with colours enabled (`NO_COLOR` unset), the string
returned by `translateHTMLforCli` ends with a line feed. -/
theorem translateHTMLforCli_colour_ends_with_newline (setHtml : String → QTextDocument)
    (text : String) (hne : text ≠ "") :
    ['\n'] <:+ (translateHTMLforCli setHtml false text).data := by
  simp only [translateHTMLforCli, hne, if_false, Bool.not_false, Bool.not_true,
    Bool.false_eq_true]
  by_cases h : endsWith (renderBlocks (setHtml text)) '\n' = true
  · simp only [h, Bool.not_true, Bool.false_eq_true, if_false]
    simp only [endsWith, beq_iff_eq] at h
    obtain ⟨l, hl⟩ : ∃ l, (renderBlocks (setHtml text)).data = l ++ ['\n'] := by
      rcases List.eq_nil_or_concat (renderBlocks (setHtml text)).data with h0 | ⟨l, c, h0⟩
      · rw [h0] at h; simp at h
      · rw [h0] at h
        simp at h
        exact ⟨l, by rw [h0, h]; simp⟩
    exact ⟨l, hl.symm⟩
  · simp only [h, Bool.not_false, if_true]
    exact ⟨(renderBlocks (setHtml text)).data, by simp⟩

/-- C6, witness: the text "hello" imported as one plain run. -/
theorem translateHTMLforCli_colour_ends_with_newline_witness :
    ['\n'] <:+ (translateHTMLforCli plainDoc false "hello").data :=
  translateHTMLforCli_colour_ends_with_newline plainDoc "hello" (by decide)

theorem scanArg_text_append (l rest : List Char) (h : '%' ∉ l) :
    scanArg .text (l ++ rest) = l.map ArgItem.lit ++ scanArg .text rest := by
  induction l with
  | nil => rfl
  | cons c cs ih =>
    have hc : c ≠ '%' := fun h0 => h (by simp [h0])
    have hcs : '%' ∉ cs := fun h0 => h (by simp [h0])
    simp [scanArg, hc, ih hcs]

theorem arg_linkFormat (link : String) :
    (arg linkFormat link).data =
      "\x1b]8;;".data ++ (link.data ++ ("\x1b\\%2\x1b]8;;\x1b\\(".data ++ (link.data ++ [')']))) := by
  rfl

theorem filterMap_number_lit (l : List Char) :
    (l.map ArgItem.lit).filterMap ArgItem.number = [] := by
  induction l with
  | nil => rfl
  | cons c cs ih => simp [ArgItem.number]

theorem flatMap_subst_lit (n : Nat) (a : String) (l : List Char) :
    (l.map ArgItem.lit).flatMap (ArgItem.subst n a) = l := by
  induction l with
  | nil => rfl
  | cons c cs ih => simp [ArgItem.subst, List.flatMap_cons, ih]

theorem arg_of_scan (s a : String) (items : List ArgItem) (lowest : Nat)
    (hs : scanArg .text s.data = items)
    (hm : (items.filterMap ArgItem.number).min? = some lowest) :
    arg s a = ⟨items.flatMap (ArgItem.subst lowest a)⟩ := by
  unfold arg
  simp only [hs, hm]

theorem scanArg_marker_two (rest : List Char) :
    scanArg .text ('%' :: '2' :: '\x1b' :: rest) =
      ArgItem.marker 2 ['%', '2'] :: ArgItem.lit '\x1b' :: scanArg .text rest := by
  rfl

/-- For a target without a percent sign the two `arg` calls give the OSC 8 string of the run. -/
theorem arg_arg_linkFormat (link text : String) (h : '%' ∉ link.data) :
    arg (arg linkFormat link) text = osc8 link text := by
  have hscan : scanArg .text (arg linkFormat link).data =
      ("\x1b]8;;".data ++ link.data ++ "\x1b\\".data).map ArgItem.lit ++
        (ArgItem.marker 2 ['%', '2'] ::
          ("\x1b]8;;\x1b\\(".data ++ link.data ++ [')']).map ArgItem.lit) := by
    rw [arg_linkFormat]
    have e1 : "\x1b]8;;".data ++ (link.data ++ ("\x1b\\%2\x1b]8;;\x1b\\(".data ++ (link.data ++ [')'])))
        = ("\x1b]8;;".data ++ link.data ++ "\x1b\\".data) ++
          ('%' :: '2' :: ("\x1b]8;;\x1b\\(".data ++ link.data ++ [')'])) := by
      simp
    rw [e1, scanArg_text_append _ _ (by simp [h])]
    congr 1
    have e2 : '%' :: '2' :: ("\x1b]8;;\x1b\\(".data ++ link.data ++ [')'])
        = '%' :: '2' :: '\x1b' :: ("]8;;\x1b\\(".data ++ link.data ++ [')'] ++ []) := by
      simp
    rw [e2, scanArg_marker_two, scanArg_text_append _ _ (by simp [h])]
    simp [scanArg]
  rw [arg_of_scan _ text _ 2 hscan
    (by
      rw [List.filterMap_append, filterMap_number_lit, List.filterMap_cons]
      simp only [ArgItem.number, filterMap_number_lit]
      rfl)]
  apply String.ext
  simp [flatMap_subst_lit, ArgItem.subst, osc8, List.flatMap_append, List.flatMap_cons]

/-- A hyperlink run whose target holds no percent sign is emitted as the OSC 8 string of the
run. -/
theorem appendFragment_plain_target (out link text : String) (hne : link ≠ "")
    (h : '%' ∉ link.data) :
    appendFragment out { text := text, anchorHref := link } = out ++ osc8 link text := by
  simp [appendFragment, hne, arg_arg_linkFormat link text h]

/-- C7, failing input: a hyperlink run with target "https://example.com/a%2Fb" and text
"Licensing Terms".  The second `arg` call replaces the "%2" inside the target as well, so what is
emitted wraps a different target, and the rendering of a body of that one run is not the OSC 8
string of the run followed by a line feed. -/
theorem hyperlink_percent_target_garbled :
    appendFragment "" { text := "Licensing Terms", anchorHref := "https://example.com/a%2Fb" } =
        osc8 "https://example.com/aLicensing TermsFb" "Licensing Terms" ∧
      appendFragment "" { text := "Licensing Terms", anchorHref := "https://example.com/a%2Fb" } ≠
        osc8 "https://example.com/a%2Fb" "Licensing Terms" ∧
      translateHTMLforCli (fun _ => linkDoc "https://example.com/a%2Fb" "Licensing Terms") false
          "<a href=\"https://example.com/a%2Fb\">Licensing Terms</a>" ≠
        osc8 "https://example.com/a%2Fb" "Licensing Terms" ++ "\n" := by
  decide

/-! ## The bitmask probe -/

theorem literal_beq_heap (text : String) (block : Nat) :
    (CharPtr.literal text == CharPtr.heap block) = false := by
  rw [beq_eq_false_iff_ne]
  intro h
  cases h

/-- C9, failing input: `checkCpuFeatureAuxv` looks the name up by the address of a temporary
buffer, which is the address of no key, so it answers false for every name and every pair of
capability words; for the name "v" (or "V") and a first word with bit 21 set the probe of the
specification answers true. -/
theorem checkCpuFeatureAuxv_always_false :
    (∀ (w1 w2 block : Nat) (feature : String), checkCpuFeatureAuxv w1 w2 block feature = false) ∧
      checkCpuFeatureAuxv (2 ^ 21) 0 0 "v" = false ∧
      checkCpuFeatureAuxvSpec (2 ^ 21) 0 "v" = true ∧
      checkCpuFeatureAuxvSpec (2 ^ 21) 0 "V" = true := by
  refine ⟨?_, by decide, by decide, by decide⟩
  intro w1 w2 block feature
  simp [checkCpuFeatureAuxv, data, value, capabilities_p1, capabilities_p2, List.find?,
    literal_beq_heap]

/-! ## The text-scan probe -/

theorem indexOfAux_some (pat : QByteArray) : ∀ (l : QByteArray) (i j : Nat),
    indexOfAux pat l i = some j →
      ∃ k, j = i + k ∧ pat <+: l.drop k ∧ ∀ q, q < k → ¬ pat <+: l.drop q
  | [], i, j, h => by
    simp only [indexOfAux] at h
    split at h
    · rename_i hp
      simp only [Option.some.injEq] at h
      refine ⟨0, by omega, ?_, by intro q hq; omega⟩
      simp [List.isEmpty_iff.mp hp]
    · simp at h
  | x :: rest, i, j, h => by
    simp only [indexOfAux] at h
    split at h
    · rename_i hp
      simp only [Option.some.injEq] at h
      exact ⟨0, by omega, by simpa [List.isPrefixOf_iff_prefix] using hp, by intro q hq; omega⟩
    · rename_i hp
      obtain ⟨k, hk, hpre, hmin⟩ := indexOfAux_some pat rest (i + 1) j h
      refine ⟨k + 1, by omega, by simpa using hpre, ?_⟩
      intro q hq
      cases q with
      | zero => simpa [List.isPrefixOf_iff_prefix] using hp
      | succ q => simpa using hmin q (by omega)

theorem indexOfAux_none (pat : QByteArray) : ∀ (l : QByteArray) (i : Nat),
    indexOfAux pat l i = none → ∀ q, ¬ pat <+: l.drop q
  | [], i, h, q => by
    simp only [indexOfAux] at h
    split at h
    · simp at h
    · rename_i hp
      simp only [List.drop_nil, List.prefix_nil]
      intro h0
      exact hp (by simp [h0])
  | x :: rest, i, h, q => by
    simp only [indexOfAux] at h
    split at h
    · simp at h
    · rename_i hp
      cases q with
      | zero => simpa [List.isPrefixOf_iff_prefix] using hp
      | succ q => simpa using indexOfAux_none pat rest (i + 1) h q

theorem indexOf_cases (data pat : QByteArray) (start : Nat) (hpat : pat ≠ []) :
    (indexOf data pat start = -1 ∧ ∀ q, start ≤ q → ¬ pat <+: data.drop q) ∨
      ∃ p : Nat, indexOf data pat start = (p : Int) ∧ FirstAt pat data start p := by
  unfold indexOf
  by_cases hs : start > data.length
  · left
    refine ⟨by simp [hs], ?_⟩
    intro q hq
    rw [List.drop_of_length_le (by omega)]
    simpa using hpat
  · simp only [hs, if_false]
    cases h : indexOfAux pat (data.drop start) start with
    | none =>
      left
      refine ⟨rfl, ?_⟩
      intro q hq
      have := indexOfAux_none pat _ _ h (q - start)
      rwa [List.drop_drop, show start + (q - start) = q by omega] at this
    | some j =>
      right
      obtain ⟨k, hk, hpre, hmin⟩ := indexOfAux_some pat _ _ _ h
      refine ⟨j, rfl, by omega, ?_, ?_⟩
      · rw [List.drop_drop] at hpre
        rw [hk]; exact hpre
      · intro q hq1 hq2
        have := hmin (q - start) (by omega)
        rwa [List.drop_drop, show start + (q - start) = q by omega] at this

theorem firstAt_unique (pat data : QByteArray) (start p q : Nat)
    (hp : FirstAt pat data start p) (hq : FirstAt pat data start q) : p = q := by
  obtain ⟨hp1, hp2, hp3⟩ := hp
  obtain ⟨hq1, hq2, hq3⟩ := hq
  rcases Nat.lt_trichotomy p q with h | h | h
  · exact absurd hp2 (hq3 p hp1 h)
  · exact h
  · exact absurd hq2 (hp3 q hq1 h)

theorem indexOf_of_firstAt (data pat : QByteArray) (start p : Nat) (hpat : pat ≠ [])
    (h : FirstAt pat data start p) : indexOf data pat start = (p : Int) := by
  rcases indexOf_cases data pat start hpat with ⟨-, hno⟩ | ⟨p', hp', hfirst⟩
  · exact absurd h.2.1 (hno p h.1)
  · rw [hp', firstAt_unique pat data start p' p hfirst h]

theorem takeWhile_until_newline : ∀ (l : QByteArray) (k : Nat),
    [10] <+: l.drop k → (∀ q, q < k → ¬ [10] <+: l.drop q) →
      l.takeWhile (fun b => b != 10) = l.take k
  | [], k, h, _ => by simp at h
  | x :: t, 0, h, _ => by
    have hx : 10 = x := by simpa using h
    simp [← hx]
  | x :: t, k + 1, h, hmin => by
    have hx : ¬ 10 = x := by simpa using hmin 0 (by omega)
    have hx2 : (x != 10) = true := by
      rw [bne_iff_ne]
      exact fun h0 => hx h0.symm
    have ih := takeWhile_until_newline t k (by simpa using h)
      (fun q hq => by simpa using hmin (q + 1) (by omega))
    simp [List.takeWhile, hx2, ih]

theorem takeWhile_no_newline : ∀ (l : QByteArray),
    (∀ q, ¬ [10] <+: l.drop q) → l.takeWhile (fun b => b != 10) = l
  | [], _ => by simp
  | x :: t, hno => by
    have hx : ¬ 10 = x := by simpa using hno 0
    have hx2 : (x != 10) = true := by
      rw [bne_iff_ne]
      exact fun h0 => hx h0.symm
    have ih := takeWhile_no_newline t (fun q => by simpa using hno (q + 1))
    simp [List.takeWhile, hx2, ih]

theorem mid_value (data : QByteArray) (p c : Nat) (hc : FirstAt [58] data p c) :
    mid data ((c : Int) + 1) (indexOf data [10] c - (c : Int) - 1) =
      (data.drop (c + 1)).takeWhile (fun b => b != 10) := by
  obtain ⟨-, hcolon, -⟩ := hc
  have hlen : c < data.length := by
    by_contra hge
    rw [List.drop_of_length_le (by omega)] at hcolon
    simp at hcolon
  have hnot : ¬ [10] <+: data.drop c := by
    intro h10
    rw [List.drop_eq_getElem_cons hlen] at hcolon h10
    simp only [List.cons_prefix_cons, List.nil_prefix, and_true] at hcolon h10
    rw [← hcolon] at h10
    exact absurd h10 (by decide)
  rcases indexOf_cases data [10] c (by simp) with ⟨hm, hno⟩ | ⟨e, he, he1, he2, he3⟩
  · rw [hm, takeWhile_no_newline]
    · have h1 : ¬ ((c : Int) + 1 > (data.length : Int)) := by omega
      have h2 : ¬ ((c : Int) + 1 < 0) := by omega
      have h3 : (-1 : Int) - (c : Int) - 1 < 0 := by omega
      have h4 : ((c : Int) + 1).toNat = c + 1 := by omega
      simp only [mid, h1, h2, h3, if_false, true_or, if_true, h4]
    · intro q
      rw [List.drop_drop]
      exact hno _ (by omega)
  · have hec : e ≠ c := by
      rintro rfl
      exact hnot he2
    have helen : e < data.length := by
      by_contra hge
      rw [List.drop_of_length_le (by omega)] at he2
      simp at he2
    rw [he]
    have h1 : ¬ ((c : Int) + 1 > (data.length : Int)) := by omega
    have h2 : ¬ ((c : Int) + 1 < 0) := by omega
    have h3 : ¬ ((e : Int) - (c : Int) - 1 < 0 ∨
        (e : Int) - (c : Int) - 1 > (data.length : Int) - ((c : Int) + 1)) := by omega
    have h4 : ((c : Int) + 1).toNat = c + 1 := by omega
    have h5 : ((e : Int) - (c : Int) - 1).toNat = e - (c + 1) := by omega
    simp only [mid, h1, h2, h3, if_false, h4, h5]
    symm
    apply takeWhile_until_newline
    · rw [List.drop_drop, show c + 1 + (e - (c + 1)) = e by omega]
      exact he2
    · intro q hq
      rw [List.drop_drop]
      exact he3 _ (by omega) (by omega)

theorem searchPrefix_ne_nil (t : Target) : toUtf8 (searchPrefix t) ≠ [] := by
  unfold searchPrefix
  split
  · decide
  · split <;> decide

/-- C8, counterexample: with the value "fpu avx2" the text scan reports the feature "avx" as
supported, although "avx" is none of the tokens "fpu" and "avx2" of the value. -/
theorem checkCpuFeature_substring_counterexample :
    checkCpuFeature sampleEnv "avx" = true ∧
      checkCpuFeatureText sampleEnv.target (some (toUtf8 "flags\t\t: fpu avx2\n")) "avx" = true ∧
      tokens (toUtf8 " fpu avx2") = [toUtf8 "fpu", toUtf8 "avx2"] ∧
      toUtf8 "avx" ∉ tokens (toUtf8 " fpu avx2") := by
  decide

/-- C8, amended: the text scan returns true exactly when the text can be read, the label
occurs in it, a colon occurs at or after the first occurrence of the label, and the bytes of the
feature name occur as a contiguous run inside the trimmed value that lies between the first such
colon and the end of its line (the end of the text when no line feed follows). -/
theorem checkCpuFeatureText_iff (t : Target) (file : Option QByteArray) (feature : String) :
    checkCpuFeatureText t file feature = true ↔
      ∃ (data : QByteArray) (p c : Nat), file = some data ∧
        FirstAt (toUtf8 (searchPrefix t)) data 0 p ∧ FirstAt [58] data p c ∧
        toUtf8 feature <:+: trimmed ((data.drop (c + 1)).takeWhile (fun b => b != 10)) := by
  constructor
  · intro h
    cases file with
    | none => simp [checkCpuFeatureText] at h
    | some data =>
      rcases indexOf_cases data (toUtf8 (searchPrefix t)) 0 (searchPrefix_ne_nil t) with
        ⟨hm, -⟩ | ⟨p, hp, hfp⟩
      · simp [checkCpuFeatureText, hm] at h
      · rcases indexOf_cases data [58] p (by simp) with ⟨hm, -⟩ | ⟨c, hc, hfc⟩
        · simp [checkCpuFeatureText, hp, hm] at h
        · refine ⟨data, p, c, rfl, hfp, hfc, ?_⟩
          have hneg1 : ¬ ((p : Int) < 0) := by omega
          have hneg2 : ¬ ((c : Int) < 0) := by omega
          simp only [checkCpuFeatureText, hp, hneg1, if_false, Int.toNat_ofNat, hc, hneg2,
            mid_value data p c hfc, contains_iff] at h
          exact h
  · rintro ⟨data, p, c, rfl, hfp, hfc, hin⟩
    have hp := indexOf_of_firstAt data _ 0 p (searchPrefix_ne_nil t) hfp
    have hc := indexOf_of_firstAt data [58] p c (by simp) hfc
    have hneg1 : ¬ ((p : Int) < 0) := by omega
    have hneg2 : ¬ ((c : Int) < 0) := by omega
    simp only [checkCpuFeatureText, hp, hneg1, if_false, Int.toNat_ofNat, hc, hneg2,
      mid_value data p c hfc, contains_iff]
    exact hin

end Nanny
